import Mathlib

/-!
Verification development for the aurora cherry-picking tool
(src/tools/bluefin-cherry-picker.py).

The Python source is shallowly embedded: each git invocation is mediated by an
environment mapping an argument list to its captured outcome (exit code and
stdout, or an OS-level fault raised before the process completed), and every
pure parsing/scanning routine of the tool is translated function by function.
Strings are modelled as lists of characters so that all predicates stay
decidable.
-/

namespace CherryPicker

/-- The character list underlying a string literal. -/
def str (s : String) : List Char := s.data

/-- The whitespace set used by the Python str.strip method. -/
def pyIsSpace (c : Char) : Bool :=
  c = ' ' || c = '\t' || c = '\n' || c = '\r' || c = '\x0b' || c = '\x0c'

/-- Python str.strip: remove leading and trailing whitespace. -/
def pyStrip (l : List Char) : List Char :=
  ((l.dropWhile pyIsSpace).reverse.dropWhile pyIsSpace).reverse

/-- Split a list at the first occurrence of a separator, if any. -/
def splitFirst (sep : Char) : List Char → Option (List Char × List Char)
  | [] => none
  | c :: rest =>
    if c = sep then some ([], rest)
    else (splitFirst sep rest).map (fun p => (c :: p.1, p.2))

/-- Python str.split with a maxsplit bound: s.split(sep, n). -/
def pySplitB (sep : Char) : Nat → List Char → List (List Char)
  | 0, l => [l]
  | Nat.succ n, l =>
    match splitFirst sep l with
    | none => [l]
    | some (pre, post) => pre :: pySplitB sep n post

/-- Python substring membership test: needle in hay. Case-sensitive. -/
def pyIn (needle : List Char) : List Char → Bool
  | [] => needle.isEmpty
  | c :: rest => needle.isPrefixOf (c :: rest) || pyIn needle rest

/-- Outcome of one external git process invocation: either the process
completed with an exit code and captured stdout, or an OS-level fault was
raised before completion (the subprocess machinery threw, e.g. the binary
was missing). -/
inductive CmdOutcome where
  | completed (exitCode : Nat) (stdout : List Char)
  | oserror (msg : List Char)
deriving DecidableEq

/-- An execution environment: the transcript every git argument list would
produce if invoked. -/
def Env : Type := List (List Char) → CmdOutcome

/-- One parsed commit record, fields as produced by GitRepo.get_commits_since. -/
structure Commit where
  hash : List Char
  author : List Char
  date : List Char
  subject : List Char
deriving DecidableEq

/-- One file-change record, fields as produced by
GitRepo.get_commit_file_changes. The status field holds the mapped kind
string. -/
structure FileChange where
  file : List Char
  status : List Char
deriving DecidableEq

/-- The dict returned by GitRepo.can_cherry_pick_cleanly. The method and
error fields are optional because the Python dict literals include them only
on some return paths. -/
structure Verdict where
  can_apply : Bool
  conflicts : List (List Char)
  method : Option (List Char)
  error : Option (List Char)
deriving DecidableEq

/-- Result of a call that may terminate the whole process: run_git_command
with check=True calls sys.exit(1) on a git non-zero exit, and SystemExit
escapes every except-Exception handler. -/
inductive OracleResult where
  | exit1
  | verdict (v : Verdict)
deriving DecidableEq

/-- Result of GitRepo.get_commit_file_changes, including the possibility
that run_git_command aborted the whole process. -/
inductive FilesResult where
  | exit1
  | ok (files : List FileChange) (error : Option (List Char))
deriving DecidableEq

/-- The status-code mapping in GitRepo.get_commit_file_changes:
a dict lookup on the first status character with default changed. -/
def change_type (c : Char) : List Char :=
  if c = 'A' then str "added"
  else if c = 'M' then str "modified"
  else if c = 'D' then str "deleted"
  else if c = 'R' then str "renamed"
  else if c = 'C' then str "copied"
  else str "changed"

/-- The body of the per-line loop in GitRepo.get_commit_file_changes:
skip blank lines, split the stripped line at the first tab, and map the
leading status character. The headD default is unreachable because a
stripped line never starts with a tab. -/
def parse_change_line (line : List Char) : Option FileChange :=
  if pyStrip line = [] then none
  else
    match pySplitB '\t' 1 (pyStrip line) with
    | [status, filepath] => some ⟨filepath, change_type (status.headD '?')⟩
    | _ => none

/-- GitRepo.get_commit_file_changes. The diff-tree stdout comes from the
environment. With check defaulting to True, a git non-zero exit makes
run_git_command call sys.exit(1); SystemExit is not an Exception, so the
local handler only sees OS-level faults. -/
def get_commit_file_changes (env : Env) (commit_hash : List Char) : FilesResult :=
  match env [str "diff-tree", str "--no-commit-id", str "--name-status", str "-r", commit_hash] with
  | .completed 0 out => .ok (((pyStrip out).splitOn '\n').filterMap parse_change_line) none
  | .completed (_ + 1) _ => .exit1
  | .oserror msg => .ok [] (some msg)

/-- The body of the per-line loop in GitRepo.get_commits_since: skip blank
lines, split on the pipe with maxsplit 3, require exactly four fields, and
drop the record when the excluded-author pattern is truthy and a substring
of the author field. -/
def parse_log_line (exclude_author : Option (List Char)) (line : List Char) : Option Commit :=
  if pyStrip line = [] then none
  else
    match pySplitB '|' 3 line with
    | [h, a, d, s] =>
      if (match exclude_author with
          | some ex => !ex.isEmpty && pyIn ex a
          | none => false) then none
      else some ⟨h, a, d, s⟩
    | _ => none

/-- GitRepo.get_commits_since, parameterised by the captured stdout of the
git log query. -/
def get_commits_since (stdout : List Char) (exclude_author : Option (List Char)) : List Commit :=
  ((pyStrip stdout).splitOn '\n').filterMap (parse_log_line exclude_author)

/-- The regex search in GitRepo.extract_pr_url for the pattern hash-digits-
close-paren. re.search scans left to right; at a hash sign the greedy digit
run must be non-empty and be followed immediately by a closing parenthesis,
otherwise the scan resumes at the next character. -/
def searchPR : List Char → Option (List Char)
  | [] => none
  | c :: rest =>
    if c = '#' then
      if rest.takeWhile Char.isDigit ≠ [] ∧ (rest.dropWhile Char.isDigit).head? = some ')' then
        some (rest.takeWhile Char.isDigit)
      else searchPR rest
    else searchPR rest

/-- GitRepo.extract_pr_url. -/
def extract_pr_url (commit_subject : List Char) (project : List Char) : List Char :=
  match searchPR commit_subject with
  | some pr_number => str "https://github.com/ublue-os/" ++ project ++ str "/pull/" ++ pr_number
  | none => []

/-- A line starting the hunk-header branch of the conflict scan. -/
def isHunkHeader (line : List Char) : Bool := (str "@@").isPrefixOf line

/-- A line taking the file-header branch of the conflict scan. -/
def isFileHeaderLine (line : List Char) : Bool :=
  (str "+++").isPrefixOf line || (str "---").isPrefixOf line

/-- A line containing one of the three conflict-marker substrings. -/
def hasConflictMarker (line : List Char) : Bool :=
  pyIn (str "<<<<<<<") line || pyIn (str ">>>>>>>") line || pyIn (str "=======") line

/-- One iteration of the scanning loop in GitRepo.can_cherry_pick_cleanly.
The state is the current file header and the conflicts list accumulated so
far, exactly as in the Python loop. Python guards each record with the
truthiness of current_file (both None and the empty string are falsy, and
a file-header line shorter than seven characters sets current_file to the
empty string via line[6:]), so a record happens only when the tracked path
is a non-empty string. -/
def scanStep (st : Option (List Char) × List (List Char)) (line : List Char) :
    Option (List Char) × List (List Char) :=
  if isHunkHeader line then
    match st.1 with
    | some f => if f ≠ [] then (st.1, st.2 ++ [f]) else st
    | none => st
  else if isFileHeaderLine line then
    if (str "+++").isPrefixOf line ∧ line ≠ str "+++ /dev/null" then
      (some (line.drop 6), st.2)
    else st
  else if hasConflictMarker line then
    match st.1 with
    | some f => if f ≠ [] ∧ f ∉ st.2 then (st.1, st.2 ++ [f]) else st
    | none => st
  else st

/-- The conflict scan of GitRepo.can_cherry_pick_cleanly applied to the
merge-tree stdout: nothing is scanned when the stripped output is empty. -/
def scan_conflicts (stdout : List Char) : List (List Char) :=
  if pyStrip stdout = [] then []
  else ((stdout.splitOn '\n').foldl scanStep (none, [])).2

/-- The header-tracking component of scanStep on its own. -/
def headerStep (cf : Option (List Char)) (line : List Char) : Option (List Char) :=
  if isHunkHeader line then cf
  else if isFileHeaderLine line then
    if (str "+++").isPrefixOf line ∧ line ≠ str "+++ /dev/null" then some (line.drop 6)
    else cf
  else cf

/-- A line that makes the scan record the current file: a hunk header, or a
non-header line containing a conflict marker. -/
def triggersConflict (line : List Char) : Bool :=
  isHunkHeader line || (!isFileHeaderLine line && hasConflictMarker line)

/-- GitRepo.can_cherry_pick_cleanly. The rev-parse of the parent runs with
check=True, so a git non-zero exit terminates the process; the merge-tree
runs with check=False, so its CompletedProcess is returned whatever its exit
code and the except-CalledProcessError fallback is unreachable. OS-level
faults from either invocation propagate to the outer except-Exception
handler, whose dict has no method key. -/
def can_cherry_pick_cleanly (env : Env) (commit_hash : List Char) : OracleResult :=
  match env [str "rev-parse", commit_hash ++ str "^"] with
  | .oserror msg => .verdict ⟨false, [], none, some msg⟩
  | .completed (_ + 1) _ => .exit1
  | .completed 0 out =>
    let parent_hash := pyStrip out
    match env [str "merge-tree", parent_hash, str "HEAD", commit_hash] with
    | .oserror msg => .verdict ⟨false, [], none, some msg⟩
    | .completed _ mout =>
      let conflicts := scan_conflicts mout
      .verdict ⟨conflicts.isEmpty, conflicts, some (str "merge-tree"), none⟩

/-- The git argument lists issued by one call of can_cherry_pick_cleanly,
in order. -/
def cherry_pick_commands (env : Env) (commit_hash : List Char) : List (List (List Char)) :=
  match env [str "rev-parse", commit_hash ++ str "^"] with
  | .completed 0 out =>
    [[str "rev-parse", commit_hash ++ str "^"],
     [str "merge-tree", pyStrip out, str "HEAD", commit_hash]]
  | _ => [[str "rev-parse", commit_hash ++ str "^"]]

/-- Modelled from the spec: git is an external tool, so which of its
subcommands mutate tracked repository state (branch pointer, index, working
tree) is taken from the design document, which states that the merge
simulation computes its result purely in memory and object-database space
and that the tool never writes to the working tree, index, or branch
pointer; rev-parse is a pure query. The listed subcommands are the mutating
ones. -/
def writes_tracked_state (cmd : List (List Char)) : Bool :=
  match cmd.head? with
  | none => true
  | some sub =>
    decide (sub ∈ [str "cherry-pick", str "merge", str "checkout", str "reset",
      str "commit", str "add", str "rm", str "rebase", str "am", str "push",
      str "pull", str "fetch", str "remote", str "apply", str "stash"])

/-- The hardcoded automation-account pattern list in
CherryPickerTool.show_status. -/
def bot_authors : List (List Char) :=
  [str "ubot-7274[bot]", str "renovate[bot]", str "github-actions[bot]",
   str "dependabot[bot]", str "blacksmith-sh[bot]"]

/-- The bot-filtering loop in CherryPickerTool.show_status, parameterised by
the pattern list: keep a commit unless some pattern is a substring of its
author field. -/
def filtered_commits (patterns : List (List Char)) : List Commit → List Commit
  | [] => []
  | c :: rest =>
    if patterns.any (fun p => pyIn p c.author) then filtered_commits patterns rest
    else c :: filtered_commits patterns rest

/-! ### Lemmas about the Python string helpers -/

lemma isPrefixOf_eq_true_iff {l₁ l₂ : List Char} :
    l₁.isPrefixOf l₂ = true ↔ ∃ t, l₂ = l₁ ++ t := by
  induction l₁ generalizing l₂ with
  | nil => simp [List.isPrefixOf]
  | cons a as ih =>
    cases l₂ with
    | nil => simp [List.isPrefixOf]
    | cons b bs =>
      simp only [List.isPrefixOf, Bool.and_eq_true, beq_iff_eq, ih, List.cons_append,
        List.cons.injEq]
      constructor
      · rintro ⟨rfl, t, rfl⟩
        exact ⟨t, rfl, rfl⟩
      · rintro ⟨t, rfl, rfl⟩
        exact ⟨rfl, t, rfl⟩

lemma pyIn_eq_true_iff {needle hay : List Char} :
    pyIn needle hay = true ↔ ∃ s t, hay = s ++ needle ++ t := by
  induction hay with
  | nil =>
    simp only [pyIn, List.isEmpty_iff]
    constructor
    · rintro rfl
      exact ⟨[], [], rfl⟩
    · rintro ⟨s, t, h⟩
      rcases List.append_eq_nil.mp h.symm with ⟨h1, h2⟩
      exact (List.append_eq_nil.mp h1).2
  | cons c rest ih =>
    simp only [pyIn, Bool.or_eq_true, isPrefixOf_eq_true_iff, ih]
    constructor
    · rintro (⟨t, h⟩ | ⟨s, t, h⟩)
      · exact ⟨[], t, by simpa using h⟩
      · exact ⟨c :: s, t, by simp [h]⟩
    · rintro ⟨s, t, h⟩
      cases s with
      | nil => exact Or.inl ⟨t, by simpa using h⟩
      | cons a s' =>
        simp only [List.cons_append, List.cons.injEq] at h
        exact Or.inr ⟨s', t, h.2⟩

lemma dropWhile_append_singleton_ne_nil {p : Char → Bool} {l : List Char} {a : Char}
    (ha : p a = false) : (l ++ [a]).dropWhile p ≠ [] := by
  induction l with
  | nil => simp [List.dropWhile_cons, ha]
  | cons b l ih =>
    by_cases hb : p b = true
    · simpa [List.dropWhile_cons, hb] using ih
    · simp [List.dropWhile_cons, hb]

lemma pyStrip_ne_nil {l : List Char} {c : Char} (hc : c ∈ l) (hs : pyIsSpace c = false) :
    pyStrip l ≠ [] := by
  induction l with
  | nil => cases hc
  | cons a l ih =>
    by_cases ha : pyIsSpace a = true
    · have hca : c ∈ l := by
        rcases List.mem_cons.mp hc with rfl | h
        · rw [hs] at ha; cases ha
        · exact h
      simpa [pyStrip, List.dropWhile_cons, ha] using ih hca
    · have ha' : pyIsSpace a = false := by simpa using ha
      have hdw : (a :: l).dropWhile pyIsSpace = a :: l := by
        rw [List.dropWhile_cons, if_neg]
        simp [ha']
      rw [pyStrip, hdw, List.reverse_cons]
      simp only [ne_eq, List.reverse_eq_nil_iff]
      exact dropWhile_append_singleton_ne_nil ha'

lemma splitOn_single {l : List Char} {sep : Char} (h : sep ∉ l) : l.splitOn sep = [l] := by
  rw [List.splitOn]
  exact List.splitOnP_eq_single _ _ (fun x hx => by
    simp only [beq_iff_eq]
    rintro rfl
    exact h hx)

lemma splitFirst_append {sep : Char} {pre post : List Char} (h : sep ∉ pre) :
    splitFirst sep (pre ++ sep :: post) = some (pre, post) := by
  induction pre with
  | nil => simp [splitFirst]
  | cons a pre ih =>
    have ha : ¬a = sep := fun h' => h (by simp [h'])
    simp [splitFirst, ha, ih (fun hm => h (List.mem_cons_of_mem _ hm))]

lemma pySplitB_log {h a d s : List Char} (hh : '|' ∉ h) (ha : '|' ∉ a) (hd : '|' ∉ d) :
    pySplitB '|' 3 (h ++ '|' :: (a ++ '|' :: (d ++ '|' :: s))) = [h, a, d, s] := by
  show pySplitB '|' (Nat.succ 2) _ = _
  rw [pySplitB, splitFirst_append hh]
  show _ :: pySplitB '|' (Nat.succ 1) _ = _
  rw [pySplitB, splitFirst_append ha]
  show _ :: _ :: pySplitB '|' (Nat.succ 0) _ = _
  rw [pySplitB, splitFirst_append hd]
  rfl

/-! ### Lemmas about the PR-reference search -/

lemma takeWhile_digits_append {ds b : List Char} (hds : ∀ c ∈ ds, c.isDigit = true) :
    (ds ++ ')' :: b).takeWhile Char.isDigit = ds ∧
    (ds ++ ')' :: b).dropWhile Char.isDigit = ')' :: b := by
  induction ds with
  | nil =>
    constructor
    · rw [List.nil_append, List.takeWhile_cons, if_neg]
      simp
    · rw [List.nil_append, List.dropWhile_cons, if_neg]
      simp
  | cons c ds ih =>
    have hc : c.isDigit = true := hds c (List.mem_cons_self _ _)
    have ih' := ih (fun x hx => hds x (List.mem_cons_of_mem _ hx))
    constructor
    · rw [List.cons_append, List.takeWhile_cons, if_pos hc, ih'.1]
    · rw [List.cons_append, List.dropWhile_cons, if_pos hc, ih'.2]

lemma searchPR_sound : ∀ {l ds : List Char}, searchPR l = some ds →
    (∃ a b, l = a ++ '#' :: (ds ++ ')' :: b)) ∧ ds ≠ [] ∧ ∀ c ∈ ds, c.isDigit = true := by
  intro l
  induction l with
  | nil => intro ds h; cases h
  | cons c rest ih =>
    intro ds h
    rw [searchPR] at h
    by_cases hc : c = '#'
    · rw [if_pos hc] at h
      by_cases hcond : rest.takeWhile Char.isDigit ≠ [] ∧
          (rest.dropWhile Char.isDigit).head? = some ')'
      · rw [if_pos hcond] at h
        obtain ⟨hne, hhd⟩ := hcond
        have hds : rest.takeWhile Char.isDigit = ds := Option.some.inj h
        cases hdw : rest.dropWhile Char.isDigit with
        | nil => rw [hdw] at hhd; cases hhd
        | cons x xs =>
          rw [hdw] at hhd
          have hx : x = ')' := Option.some.inj hhd
          refine ⟨⟨[], xs, ?_⟩, hds ▸ hne, fun d hd => List.mem_takeWhile_imp (hds ▸ hd)⟩
          have hrest : rest = ds ++ ')' :: xs := by
            rw [← List.takeWhile_append_dropWhile (p := Char.isDigit) (l := rest), hds, hdw, hx]
          rw [List.nil_append, hc, hrest]
      · rw [if_neg hcond] at h
        obtain ⟨⟨a, b, rfl⟩, hne, hdig⟩ := ih h
        exact ⟨⟨c :: a, b, rfl⟩, hne, hdig⟩
    · rw [if_neg hc] at h
      obtain ⟨⟨a, b, rfl⟩, hne, hdig⟩ := ih h
      exact ⟨⟨c :: a, b, rfl⟩, hne, hdig⟩

lemma searchPR_isSome {ds : List Char} (hne : ds ≠ [])
    (hdig : ∀ c ∈ ds, c.isDigit = true) :
    ∀ (a b : List Char), (searchPR (a ++ '#' :: (ds ++ ')' :: b))).isSome = true := by
  intro a
  induction a with
  | nil =>
    intro b
    obtain ⟨ht, hd⟩ := takeWhile_digits_append hdig (b := b)
    rw [List.nil_append, searchPR, if_pos rfl, if_pos ⟨ht.symm ▸ hne, by rw [hd]; rfl⟩]
    rfl
  | cons c a ih =>
    intro b
    rw [List.cons_append, searchPR]
    by_cases hc : c = '#'
    · rw [if_pos hc]
      by_cases hcond : (a ++ '#' :: (ds ++ ')' :: b)).takeWhile Char.isDigit ≠ [] ∧
          ((a ++ '#' :: (ds ++ ')' :: b)).dropWhile Char.isDigit).head? = some ')'
      · rw [if_pos hcond]; rfl
      · rw [if_neg hcond]; exact ih b
    · rw [if_neg hc]; exact ih b

lemma searchPR_leftmost : ∀ (a : List Char) {ds b : List Char},
    ds ≠ [] → (∀ c ∈ ds, c.isDigit = true) →
    (∀ a' ds' b', a ++ '#' :: (ds ++ ')' :: b) = a' ++ '#' :: (ds' ++ ')' :: b') →
        ds' ≠ [] → (∀ c ∈ ds', c.isDigit = true) → a.length ≤ a'.length) →
    searchPR (a ++ '#' :: (ds ++ ')' :: b)) = some ds := by
  intro a
  induction a with
  | nil =>
    intro ds b hne hdig _
    obtain ⟨ht, hd⟩ := takeWhile_digits_append hdig (b := b)
    rw [List.nil_append, searchPR, if_pos rfl, if_pos ⟨ht.symm ▸ hne, by rw [hd]; rfl⟩, ht]
  | cons c a ih =>
    intro ds b hne hdig hmin
    rw [List.cons_append, searchPR]
    by_cases hc : c = '#'
    · rw [if_pos hc]
      have hcond : ¬((a ++ '#' :: (ds ++ ')' :: b)).takeWhile Char.isDigit ≠ [] ∧
          ((a ++ '#' :: (ds ++ ')' :: b)).dropWhile Char.isDigit).head? = some ')') := by
        rintro ⟨htw, hhd⟩
        cases hdw : (a ++ '#' :: (ds ++ ')' :: b)).dropWhile Char.isDigit with
        | nil => rw [hdw] at hhd; cases hhd
        | cons x xs =>
          rw [hdw] at hhd
          have hx : x = ')' := Option.some.inj hhd
          subst hx
          have hsplit : c :: (a ++ '#' :: (ds ++ ')' :: b)) =
              [] ++ '#' :: ((a ++ '#' :: (ds ++ ')' :: b)).takeWhile Char.isDigit ++ ')' :: xs) := by
            rw [List.nil_append, hc]
            congr 1
            rw [← hdw, List.takeWhile_append_dropWhile]
          have hlen := hmin [] ((a ++ '#' :: (ds ++ ')' :: b)).takeWhile Char.isDigit) xs
            hsplit htw (fun d hd => List.mem_takeWhile_imp hd)
          simp at hlen
      rw [if_neg hcond]
      apply ih hne hdig
      intro a' ds' b' heq hne' hdig'
      have := hmin (c :: a') ds' b' (congrArg (fun t => c :: t) heq) hne' hdig'
      simpa using this
    · rw [if_neg hc]
      apply ih hne hdig
      intro a' ds' b' heq hne' hdig'
      have := hmin (c :: a') ds' b' (congrArg (fun t => c :: t) heq) hne' hdig'
      simpa using this

/-! ### Lemmas about the conflict scan -/

lemma scanStep_fst (st : Option (List Char) × List (List Char)) (line : List Char) :
    (scanStep st line).1 = headerStep st.1 line := by
  rcases st with ⟨cf, acc⟩
  simp only [scanStep, headerStep]
  by_cases h1 : isHunkHeader line = true
  · rw [if_pos h1, if_pos h1]
    cases cf with
    | none => rfl
    | some f =>
      dsimp only
      split <;> rfl
  · rw [if_neg h1, if_neg h1]
    by_cases h2 : isFileHeaderLine line = true
    · rw [if_pos h2, if_pos h2]
      split <;> rfl
    · rw [if_neg h2, if_neg h2]
      by_cases h4 : hasConflictMarker line = true
      · rw [if_pos h4]
        cases cf with
        | none => rfl
        | some f =>
          dsimp only
          split <;> rfl
      · rw [if_neg h4]

lemma scanStep_snd_mem {cf : Option (List Char)} {acc : List (List Char)}
    {line p : List Char} :
    p ∈ (scanStep (cf, acc) line).2 ↔
      p ∈ acc ∨ (triggersConflict line = true ∧ cf = some p ∧ p ≠ []) := by
  simp only [scanStep]
  by_cases h1 : isHunkHeader line = true
  · have htr : triggersConflict line = true := by simp [triggersConflict, h1]
    rw [if_pos h1]
    cases cf with
    | none => simp [htr]
    | some f =>
      dsimp only
      by_cases hf : f ≠ []
      · rw [if_pos hf]
        simp only [htr, true_and, List.mem_append, List.mem_singleton, Option.some.injEq]
        constructor
        · rintro (hp | rfl)
          · exact Or.inl hp
          · exact Or.inr ⟨rfl, hf⟩
        · rintro (hp | ⟨rfl, -⟩)
          · exact Or.inl hp
          · exact Or.inr rfl
      · rw [if_neg hf]
        simp only [htr, true_and, Option.some.injEq]
        constructor
        · exact fun hp => Or.inl hp
        · rintro (hp | ⟨rfl, hne⟩)
          · exact hp
          · exact absurd hne hf
  · rw [if_neg h1]
    by_cases h2 : isFileHeaderLine line = true
    · have htr : triggersConflict line = false := by simp [triggersConflict, h1, h2]
      rw [if_pos h2, htr]
      split <;> simp
    · rw [if_neg h2]
      by_cases h4 : hasConflictMarker line = true
      · have hf : isFileHeaderLine line = false := by simpa using h2
        have htr : triggersConflict line = true := by simp [triggersConflict, h4, hf]
        rw [if_pos h4]
        cases cf with
        | none => simp [htr]
        | some f =>
          dsimp only
          by_cases h5 : f ≠ [] ∧ f ∉ acc
          · rw [if_pos h5]
            simp only [htr, true_and, List.mem_append, List.mem_singleton, Option.some.injEq]
            constructor
            · rintro (hp | rfl)
              · exact Or.inl hp
              · exact Or.inr ⟨rfl, h5.1⟩
            · rintro (hp | ⟨rfl, -⟩)
              · exact Or.inl hp
              · exact Or.inr rfl
          · rw [if_neg h5]
            simp only [htr, true_and, Option.some.injEq]
            constructor
            · exact fun hp => Or.inl hp
            · rintro (hp | ⟨rfl, hne⟩)
              · exact hp
              · by_cases hmem : f ∈ acc
                · exact hmem
                · exact absurd ⟨hne, hmem⟩ h5
      · have htr : triggersConflict line = false := by
          simp [triggersConflict, h1, h4]
        rw [if_neg h4, htr]
        simp

lemma scanStep_snd_no_trigger {cf : Option (List Char)} {acc : List (List Char)}
    {line : List Char} (h : triggersConflict line = false) :
    (scanStep (cf, acc) line).2 = acc := by
  simp only [triggersConflict, Bool.or_eq_false_iff, Bool.and_eq_false_iff] at h
  obtain ⟨h1, h24⟩ := h
  simp only [scanStep]
  rw [if_neg (by simp [h1])]
  by_cases h2 : isFileHeaderLine line = true
  · rw [if_pos h2]
    split <;> rfl
  · rw [if_neg h2]
    have h4 : hasConflictMarker line = false := by
      rcases h24 with h2' | h4
      · have hf : isFileHeaderLine line = false := by simpa using h2
        rw [hf] at h2'
        cases h2'
      · exact h4
    rw [if_neg (by simp [h4])]

lemma fold_scan_no_trigger {lines : List (List Char)}
    (h : ∀ line ∈ lines, triggersConflict line = false) :
    ∀ (cf : Option (List Char)) (acc : List (List Char)),
      (lines.foldl scanStep (cf, acc)).2 = acc := by
  induction lines with
  | nil => intro cf acc; rfl
  | cons line rest ih =>
    intro cf acc
    rw [List.foldl_cons,
      show scanStep (cf, acc) line = ((scanStep (cf, acc) line).1, (scanStep (cf, acc) line).2)
        from rfl,
      scanStep_snd_no_trigger (h line (List.mem_cons_self _ _))]
    exact ih (fun l hl => h l (List.mem_cons_of_mem _ hl)) _ acc

lemma mem_scan_fold {p : List Char} :
    ∀ (lines : List (List Char)) (cf : Option (List Char)) (acc : List (List Char)),
      p ∈ (lines.foldl scanStep (cf, acc)).2 ↔
        p ∈ acc ∨ ∃ l₁ line l₂, lines = l₁ ++ line :: l₂ ∧ triggersConflict line = true ∧
          l₁.foldl headerStep cf = some p ∧ p ≠ [] := by
  intro lines
  induction lines with
  | nil =>
    intro cf acc
    simp only [List.foldl_nil, List.nil_eq, List.append_eq_nil]
    constructor
    · exact fun hp => Or.inl hp
    · rintro (hp | ⟨l₁, line, l₂, ⟨-, hcontra⟩, -, -, -⟩)
      · exact hp
      · cases hcontra
  | cons line rest ih =>
    intro cf acc
    rw [List.foldl_cons,
      show scanStep (cf, acc) line = ((scanStep (cf, acc) line).1, (scanStep (cf, acc) line).2)
        from rfl,
      ih, scanStep_fst]
    constructor
    · rintro (hmem | ⟨l₁, ln, l₂, hsplit, htrig, hfold, hne⟩)
      · rcases scanStep_snd_mem.mp hmem with hacc | ⟨htrig, hcf, hne⟩
        · exact Or.inl hacc
        · exact Or.inr ⟨[], line, rest, rfl, htrig, hcf, hne⟩
      · exact Or.inr ⟨line :: l₁, ln, l₂, by rw [List.cons_append, hsplit], htrig,
          by simpa [List.foldl_cons] using hfold, hne⟩
    · rintro (hacc | ⟨l₁, ln, l₂, hsplit, htrig, hfold, hne⟩)
      · exact Or.inl (scanStep_snd_mem.mpr (Or.inl hacc))
      · cases l₁ with
        | nil =>
          rw [List.nil_append] at hsplit
          injection hsplit with hl hr
          subst hl
          subst hr
          exact Or.inl (scanStep_snd_mem.mpr (Or.inr ⟨htrig, by simpa using hfold, hne⟩))
        | cons x l₁' =>
          rw [List.cons_append] at hsplit
          injection hsplit with hl hr
          subst hl
          exact Or.inr ⟨l₁', ln, l₂, hr, htrig, by simpa [List.foldl_cons] using hfold, hne⟩

lemma mem_scan_conflicts {stdout p : List Char} (h : pyStrip stdout ≠ []) :
    p ∈ scan_conflicts stdout ↔
      ∃ l₁ line l₂, stdout.splitOn '\n' = l₁ ++ line :: l₂ ∧ triggersConflict line = true ∧
        l₁.foldl headerStep none = some p ∧ p ≠ [] := by
  rw [scan_conflicts, if_neg h, mem_scan_fold]
  simp

lemma scan_conflicts_no_trigger {stdout : List Char}
    (h : ∀ line ∈ stdout.splitOn '\n', triggersConflict line = false) :
    scan_conflicts stdout = [] := by
  rw [scan_conflicts]
  by_cases hs : pyStrip stdout = []
  · rw [if_pos hs]
  · rw [if_neg hs]
    exact fold_scan_no_trigger h none []

/-! ### Claim theorems -/

/-- Claim C5: the changeKind mapping is a total, deterministic function of the
first character of the status code: A maps to added, M to modified, D to
deleted, R to renamed, C to copied, and every other character to changed;
every status code maps to exactly one of the six kinds. -/
theorem C5_change_kind_total :
    change_type 'A' = str "added" ∧ change_type 'M' = str "modified" ∧
    change_type 'D' = str "deleted" ∧ change_type 'R' = str "renamed" ∧
    change_type 'C' = str "copied" ∧
    (∀ c : Char, c ≠ 'A' → c ≠ 'M' → c ≠ 'D' → c ≠ 'R' → c ≠ 'C' →
      change_type c = str "changed") ∧
    (∀ c : Char, change_type c ∈
      [str "added", str "modified", str "deleted", str "renamed", str "copied",
       str "changed"]) := by
  refine ⟨rfl, rfl, rfl, rfl, rfl, ?_, ?_⟩
  · intro c h1 h2 h3 h4 h5
    simp [change_type, h1, h2, h3, h4, h5]
  · intro c
    by_cases h1 : c = 'A'
    · simp [change_type, h1]
    · by_cases h2 : c = 'M'
      · simp [change_type, h1, h2]
      · by_cases h3 : c = 'D'
        · simp [change_type, h1, h2, h3]
        · by_cases h4 : c = 'R'
          · simp [change_type, h1, h2, h3, h4]
          · by_cases h5 : c = 'C'
            · simp [change_type, h1, h2, h3, h4, h5]
            · simp [change_type, h1, h2, h3, h4, h5]

/-- Witness for C5 at the concrete unrecognized code T. -/
theorem C5_change_kind_total_witness : change_type 'T' = str "changed" :=
  C5_change_kind_total.2.2.2.2.2.1 'T' (by decide) (by decide) (by decide) (by decide)
    (by decide)

/-- Claim C6: the author filter drops a commit iff at least one configured
pattern is a case-sensitive substring of its author field, and the surviving
sequence is exactly the complement of the dropped commits, in the original
order. -/
theorem C6_author_filter :
    ∀ (patterns : List (List Char)) (commits : List Commit),
      filtered_commits patterns commits =
        commits.filter (fun c => !patterns.any (fun p => pyIn p c.author)) ∧
      ∀ c ∈ commits,
        (c ∉ filtered_commits patterns commits ↔
          ∃ p ∈ patterns, ∃ s t, c.author = s ++ p ++ t) := by
  intro patterns commits
  have hfil : filtered_commits patterns commits =
      commits.filter (fun c => !patterns.any (fun p => pyIn p c.author)) := by
    induction commits with
    | nil => rfl
    | cons c rest ih =>
      by_cases h : patterns.any (fun p => pyIn p c.author) = true
      · rw [filtered_commits, if_pos h, List.filter_cons, if_neg (by simp [h]), ih]
      · have hfalse : (patterns.any fun p => pyIn p c.author) = false := by simpa using h
        rw [filtered_commits, if_neg h, List.filter_cons, if_pos (by rw [hfalse]; rfl), ih]
  refine ⟨hfil, ?_⟩
  intro c hc
  rw [hfil]
  constructor
  · intro hnot
    have : ¬(c ∈ commits ∧ (!patterns.any (fun p => pyIn p c.author)) = true) := by
      intro hmem
      exact hnot (List.mem_filter.mpr hmem)
    have hany : patterns.any (fun p => pyIn p c.author) = true := by
      by_contra hno
      have hfalse : (patterns.any fun p => pyIn p c.author) = false := by simpa using hno
      exact this ⟨hc, by rw [hfalse]; rfl⟩
    obtain ⟨p, hp, hin⟩ := List.any_eq_true.mp hany
    obtain ⟨s, t, hst⟩ := pyIn_eq_true_iff.mp hin
    exact ⟨p, hp, s, t, hst⟩
  · rintro ⟨p, hp, s, t, hst⟩ hmem
    have hin : pyIn p c.author = true := pyIn_eq_true_iff.mpr ⟨s, t, hst⟩
    have hany : patterns.any (fun p => pyIn p c.author) = true :=
      List.any_eq_true.mpr ⟨p, hp, hin⟩
    have := (List.mem_filter.mp hmem).2
    rw [hany] at this
    cases this

/-- Witness for C6: a commit authored by the renovate bot is dropped by the
hardcoded pattern list. -/
theorem C6_author_filter_witness :
    (⟨str "h1", str "renovate[bot]", str "d", str "s"⟩ : Commit) ∉
      filtered_commits bot_authors
        [⟨str "h1", str "renovate[bot]", str "d", str "s"⟩,
         ⟨str "h2", str "Alice", str "d", str "s"⟩] :=
  ((C6_author_filter bot_authors
      [⟨str "h1", str "renovate[bot]", str "d", str "s"⟩,
       ⟨str "h2", str "Alice", str "d", str "s"⟩]).2
    ⟨str "h1", str "renovate[bot]", str "d", str "s"⟩ (by decide)).mpr
    ⟨str "renovate[bot]", by decide, [], [], by decide⟩

/-- Claim C7: the subject Fix bug (#1234) with target project bluefin resolves
to the canonical pull URL, and every subject containing no occurrence of a
hash sign followed by digits followed by a closing parenthesis resolves to
the empty string. -/
theorem C7_pr_extraction :
    extract_pr_url (str "Fix bug (#1234)") (str "bluefin") =
      str "https://github.com/ublue-os/bluefin/pull/1234" ∧
    ∀ (subject project : List Char),
      (¬∃ a ds b, subject = a ++ '#' :: (ds ++ ')' :: b) ∧ ds ≠ [] ∧
        ∀ c ∈ ds, c.isDigit = true) →
      extract_pr_url subject project = [] := by
  constructor
  · decide
  · intro subject project hno
    rw [extract_pr_url]
    cases hs : searchPR subject with
    | none => rfl
    | some ds =>
      obtain ⟨⟨a, b, heq⟩, hne, hdig⟩ := searchPR_sound hs
      exact absurd ⟨a, ds, b, heq, hne, hdig⟩ hno

/-- A subject without a hash sign has no PR-reference occurrence at all. -/
lemma no_occurrence_without_hash {subject : List Char} (h : '#' ∉ subject) :
    ¬∃ a ds b, subject = a ++ '#' :: (ds ++ ')' :: b) ∧ ds ≠ [] ∧
      ∀ c ∈ ds, c.isDigit = true := by
  rintro ⟨a, ds, b, rfl, -, -⟩
  exact h (by simp)

/-- Witness for C7 at the concrete subject Fix bug. -/
theorem C7_pr_extraction_witness : extract_pr_url (str "Fix bug") (str "bluefin") = [] :=
  C7_pr_extraction.2 (str "Fix bug") (str "bluefin")
    (no_occurrence_without_hash (by decide))

/-- Claim C10: any subject containing a hash sign followed by digits followed
by a closing parenthesis yields a non-empty URL (no opening parenthesis is
required before the hash sign), and when there are several occurrences the
URL is built from the digits of the leftmost one. -/
theorem C10_pr_leftmost :
    ∀ (subject project a ds b : List Char),
      subject = a ++ '#' :: (ds ++ ')' :: b) →
      ds ≠ [] → (∀ c ∈ ds, c.isDigit = true) →
      extract_pr_url subject project ≠ [] ∧
      ((∀ a' ds' b', subject = a' ++ '#' :: (ds' ++ ')' :: b') → ds' ≠ [] →
          (∀ c ∈ ds', c.isDigit = true) → a.length ≤ a'.length) →
        extract_pr_url subject project =
          str "https://github.com/ublue-os/" ++ project ++ str "/pull/" ++ ds) := by
  intro subject project a ds b heq hne hdig
  subst heq
  constructor
  · have hsome := searchPR_isSome hne hdig a b
    rw [extract_pr_url]
    cases hs : searchPR (a ++ '#' :: (ds ++ ')' :: b)) with
    | none => rw [hs] at hsome; cases hsome
    | some ds' => simp [str]
  · intro hmin
    rw [extract_pr_url, searchPR_leftmost a hne hdig hmin]

/-- Witness for C10: a subject with two occurrences and no opening
parenthesis before the first hash sign resolves to the first number. -/
theorem C10_pr_leftmost_witness :
    extract_pr_url (str "x#12) (#34)") (str "bluefin") ≠ [] ∧
    extract_pr_url (str "x#12) (#34)") (str "bluefin") =
      str "https://github.com/ublue-os/bluefin/pull/12" := by
  have h := C10_pr_leftmost (str "x#12) (#34)") (str "bluefin") (str "x") (str "12")
    (str " (#34)") (by decide) (by decide) (by decide)
  refine ⟨h.1, h.2 ?_⟩
  intro a' ds' b' heq hne hdig
  cases a' with
  | nil =>
    exfalso
    have h0 : (str "x#12) (#34)").head? = some 'x' := by decide
    rw [List.nil_append] at heq
    rw [heq] at h0
    simp at h0
  | cons x t =>
    have h1 : (str "x").length = 1 := by decide
    rw [h1, List.length_cons]
    exact Nat.succ_le_succ (Nat.zero_le _)

/-- Claim C8: log-record parsing uses a bounded split on the pipe delimiter,
so for a log line hash-pipe-author-pipe-date-pipe-subject in which the
subject itself contains the delimiter, the parsed subject is the entire
remainder of the line after the third delimiter; and an empty query output
yields an empty sequence rather than a failure. -/
theorem C8_log_record_parsing :
    ∀ (hsh author date subject : List Char),
      '|' ∉ hsh → '|' ∉ author → '|' ∉ date →
      '\n' ∉ hsh → '\n' ∉ author → '\n' ∉ date → '\n' ∉ subject →
      '|' ∈ subject →
      pyStrip (hsh ++ '|' :: (author ++ '|' :: (date ++ '|' :: subject))) =
        hsh ++ '|' :: (author ++ '|' :: (date ++ '|' :: subject)) →
      get_commits_since (hsh ++ '|' :: (author ++ '|' :: (date ++ '|' :: subject))) none =
        [⟨hsh, author, date, subject⟩] ∧
      get_commits_since [] none = [] := by
  intro hsh author date subject hp1 hp2 hp3 hn1 hn2 hn3 hn4 hps hstrip
  constructor
  · have hline : '\n' ∉ hsh ++ '|' :: (author ++ '|' :: (date ++ '|' :: subject)) := by
      intro hmem
      simp only [List.mem_append, List.mem_cons] at hmem
      rcases hmem with h | h | h | h | h | h | h
      · exact hn1 h
      · exact absurd h (by decide)
      · exact hn2 h
      · exact absurd h (by decide)
      · exact hn3 h
      · exact absurd h (by decide)
      · exact hn4 h
    have hpipe : '|' ∈ hsh ++ '|' :: (author ++ '|' :: (date ++ '|' :: subject)) := by simp
    rw [get_commits_since, hstrip, splitOn_single hline, List.filterMap, parse_log_line,
      if_neg (pyStrip_ne_nil hpipe (by decide)), pySplitB_log hp1 hp2 hp3]
    rfl
  · rfl

/-- Witness for C8 at a concrete log line whose subject contains the
delimiter. -/
theorem C8_log_record_parsing_witness :
    get_commits_since (str "a1b2|Alice|2024-01-01|feat: add a|b toggle") none =
      [⟨str "a1b2", str "Alice", str "2024-01-01", str "feat: add a|b toggle"⟩] ∧
    get_commits_since [] none = [] :=
  C8_log_record_parsing (str "a1b2") (str "Alice") (str "2024-01-01")
    (str "feat: add a|b toggle") (by decide) (by decide) (by decide) (by decide)
    (by decide) (by decide) (by decide) (by decide) (by decide)

/-- Claim C1, counterexample to the stated version: a merge-tree transcript
containing no conflict-marker line at all still produces a recorded
conflicting path and a negative verdict, because the scan also records the
current file on every hunk-header line. -/
theorem C1_counterexample :
    (∀ line ∈ (str "+++ b/foo\n@@ -1 +1 @@\ncontext").splitOn '\n',
      hasConflictMarker line = false) ∧
    can_cherry_pick_cleanly
        (fun cmd => if cmd.head? = some (str "rev-parse") then CmdOutcome.completed 0 (str "p")
          else CmdOutcome.completed 0 (str "+++ b/foo\n@@ -1 +1 @@\ncontext"))
        (str "abc") =
      .verdict ⟨false, [str "foo"], some (str "merge-tree"), none⟩ :=
  ⟨by decide, by decide⟩

/-- Claim C1, amended: a path is recorded in the conflict list iff it is
non-empty and some line of the scanned transcript triggers a record while
that path is the current file header, where a line triggers a record when it
is a hunk-header line or a non-header line containing a conflict marker (an
empty tracked path is falsy in Python and is never recorded); and whenever
every line of the merge-tree transcript is trigger-free, the verdict is
applicable with no conflicting paths and method merge-tree. -/
theorem C1_conflict_scan_amended :
    ∀ (stdout p : List Char),
      (pyStrip stdout ≠ [] →
        (p ∈ scan_conflicts stdout ↔
          ∃ l₁ line l₂, stdout.splitOn '\n' = l₁ ++ line :: l₂ ∧
            triggersConflict line = true ∧ l₁.foldl headerStep none = some p ∧ p ≠ [])) ∧
      (∀ (env : Env) (commit_hash parent_out : List Char) (code : Nat),
        env [str "rev-parse", commit_hash ++ str "^"] = .completed 0 parent_out →
        env [str "merge-tree", pyStrip parent_out, str "HEAD", commit_hash] =
          .completed code stdout →
        (∀ line ∈ stdout.splitOn '\n', triggersConflict line = false) →
        can_cherry_pick_cleanly env commit_hash =
          .verdict ⟨true, [], some (str "merge-tree"), none⟩) := by
  intro stdout p
  constructor
  · exact fun h => mem_scan_conflicts h
  · intro env commit_hash parent_out code h1 h2 hno
    rw [can_cherry_pick_cleanly, h1]
    dsimp only
    rw [h2]
    dsimp only
    rw [scan_conflicts_no_trigger hno]
    rfl

/-- Witness for C1 amended, at a concrete trigger-free transcript. -/
theorem C1_conflict_scan_amended_witness :
    can_cherry_pick_cleanly
        (fun cmd => if cmd.head? = some (str "rev-parse") then CmdOutcome.completed 0 (str "p")
          else CmdOutcome.completed 0 (str "hello\nworld"))
        (str "abc") =
      .verdict ⟨true, [], some (str "merge-tree"), none⟩ :=
  (C1_conflict_scan_amended (str "hello\nworld") (str "f")).2
    (fun cmd => if cmd.head? = some (str "rev-parse") then CmdOutcome.completed 0 (str "p")
      else CmdOutcome.completed 0 (str "hello\nworld"))
    (str "abc") (str "p") 0 (by decide) (by decide) (by decide)

/-- Claim C2, evaluation at the failing inputs: when the merge simulation
exits non-zero (it runs with check set to False, so no exception is raised
and the dead except-CalledProcessError fallback never fires), the scan of
its empty stdout yields a verdict that is applicable with method merge-tree
and no diagnostic, not the claimed non-applicable unknown verdict; and when
an OS-level fault is raised, the outer handler returns a dict with no method
key at all. -/
theorem C2_failure_path_eval :
    can_cherry_pick_cleanly
        (fun cmd => if cmd.head? = some (str "merge-tree") then CmdOutcome.completed 129 []
          else CmdOutcome.completed 0 (str "p"))
        (str "deadbeef") =
      .verdict ⟨true, [], some (str "merge-tree"), none⟩ ∧
    can_cherry_pick_cleanly (fun _ => CmdOutcome.oserror (str "exec format error"))
        (str "deadbeef") =
      .verdict ⟨false, [], none, some (str "exec format error")⟩ :=
  ⟨by decide, by decide⟩

/-- Claim C3, evaluation at the failing inputs: when git diff-tree exits
non-zero, run_git_command (check defaults to True) calls sys.exit(1) and the
whole run aborts, because SystemExit is not caught by the local
except-Exception handler; only an OS-level fault takes the documented soft
path of an empty change list plus a diagnostic. -/
theorem C3_diff_failure_eval :
    get_commit_file_changes (fun _ => CmdOutcome.completed 128 (str "fatal: bad object"))
      (str "badhash") = .exit1 ∧
    get_commit_file_changes (fun _ => CmdOutcome.oserror (str "boom")) (str "badhash") =
      .ok [] (some (str "boom")) :=
  ⟨by decide, by decide⟩

/-- Claim C4: every verdict returned by the oracle satisfies the invariant
that the conflicting-path list is non-empty only when the verdict is not
applicable, and that method unknown implies not applicable. -/
theorem C4_verdict_invariant :
    ∀ (env : Env) (commit_hash : List Char) (v : Verdict),
      can_cherry_pick_cleanly env commit_hash = .verdict v →
      (v.can_apply = false ∨ v.conflicts = []) ∧
      (v.method ≠ some (str "unknown") ∨ v.can_apply = false) := by
  intro env commit_hash v hv
  rw [can_cherry_pick_cleanly] at hv
  cases h1 : env [str "rev-parse", commit_hash ++ str "^"] with
  | oserror msg =>
    rw [h1] at hv
    injection hv with hv
    subst hv
    exact ⟨Or.inl rfl, Or.inr rfl⟩
  | completed code out =>
    rw [h1] at hv
    cases code with
    | zero =>
      dsimp only at hv
      cases h2 : env [str "merge-tree", pyStrip out, str "HEAD", commit_hash] with
      | oserror msg =>
        rw [h2] at hv
        injection hv with hv
        subst hv
        exact ⟨Or.inl rfl, Or.inr rfl⟩
      | completed code2 mout =>
        rw [h2] at hv
        injection hv with hv
        subst hv
        constructor
        · cases hsc : scan_conflicts mout with
          | nil => exact Or.inr rfl
          | cons x xs => exact Or.inl (by simp [hsc])
        · exact Or.inl (by simp [str])
    | succ n =>
      exact OracleResult.noConfusion hv

/-- Witness for C4 at a concrete environment whose simulation output is
empty. -/
theorem C4_verdict_invariant_witness :
    ((⟨true, [], some (str "merge-tree"), none⟩ : Verdict).can_apply = false ∨
      (⟨true, [], some (str "merge-tree"), none⟩ : Verdict).conflicts = []) ∧
    ((⟨true, [], some (str "merge-tree"), none⟩ : Verdict).method ≠ some (str "unknown") ∨
      (⟨true, [], some (str "merge-tree"), none⟩ : Verdict).can_apply = false) :=
  C4_verdict_invariant (fun _ => CmdOutcome.completed 0 []) (str "abc")
    ⟨true, [], some (str "merge-tree"), none⟩ (by decide)

/-- Claim C9: the oracle is deterministic in the commit hash and the
simulation transcripts — two environments agreeing on the parent resolution
and on the merge-tree output produce identical verdicts and identical command
traces — and no command it issues is a git subcommand that writes tracked
repository state. -/
theorem C9_oracle_deterministic_readonly :
    ∀ (env₁ env₂ : Env) (commit_hash : List Char),
      env₁ [str "rev-parse", commit_hash ++ str "^"] =
        env₂ [str "rev-parse", commit_hash ++ str "^"] →
      (∀ parent, env₁ [str "merge-tree", parent, str "HEAD", commit_hash] =
        env₂ [str "merge-tree", parent, str "HEAD", commit_hash]) →
      can_cherry_pick_cleanly env₁ commit_hash = can_cherry_pick_cleanly env₂ commit_hash ∧
      cherry_pick_commands env₁ commit_hash = cherry_pick_commands env₂ commit_hash ∧
      ∀ cmd ∈ cherry_pick_commands env₁ commit_hash, writes_tracked_state cmd = false := by
  intro env₁ env₂ commit_hash hrev hmerge
  have hro1 : writes_tracked_state [str "rev-parse", commit_hash ++ str "^"] = false := rfl
  refine ⟨?_, ?_, ?_⟩
  · rw [can_cherry_pick_cleanly, can_cherry_pick_cleanly, hrev]
    cases h1 : env₂ [str "rev-parse", commit_hash ++ str "^"] with
    | oserror msg => rfl
    | completed code out =>
      cases code with
      | zero =>
        dsimp only
        rw [hmerge (pyStrip out)]
      | succ n => rfl
  · rw [cherry_pick_commands, cherry_pick_commands, hrev]
  · intro cmd hcmd
    rw [cherry_pick_commands] at hcmd
    cases h1 : env₁ [str "rev-parse", commit_hash ++ str "^"] with
    | oserror msg =>
      rw [h1] at hcmd
      rcases List.mem_singleton.mp hcmd with rfl
      exact hro1
    | completed code out =>
      rw [h1] at hcmd
      cases code with
      | zero =>
        rcases List.mem_cons.mp hcmd with rfl | hcmd'
        · exact hro1
        · rcases List.mem_singleton.mp hcmd' with rfl
          rfl
      | succ n =>
        rcases List.mem_singleton.mp hcmd with rfl
        exact hro1

/-- Witness for C9: two syntactically different environments that agree on
the two relevant transcripts give equal verdicts, and the rev-parse command
is classified as non-writing. -/
theorem C9_oracle_deterministic_readonly_witness :
    can_cherry_pick_cleanly (fun _ => CmdOutcome.completed 0 (str "p")) (str "abc") =
      can_cherry_pick_cleanly
        (fun cmd => if cmd.head? = some (str "status") then CmdOutcome.oserror (str "x")
          else CmdOutcome.completed 0 (str "p"))
        (str "abc") ∧
    writes_tracked_state [str "rev-parse", str "abc" ++ str "^"] = false := by
  have h := C9_oracle_deterministic_readonly (fun _ => CmdOutcome.completed 0 (str "p"))
    (fun cmd => if cmd.head? = some (str "status") then CmdOutcome.oserror (str "x")
      else CmdOutcome.completed 0 (str "p"))
    (str "abc") (by decide) (fun parent => rfl)
  exact ⟨h.1, h.2.2 [str "rev-parse", str "abc" ++ str "^"] (by decide)⟩

end CherryPicker
